import Mathlib

/-!
Verification of the menu-extractor backend core against its specification.

The definitions below are a shallow embedding of the Python sources:
  app/services/normalizer.py   (chunking, merging, counting)
  app/services/ocr.py          (concurrent OCR fan-out and recombination)
  app/services/mongo_service.py (durable store lookup)
  app/services/serpapi_service.py (image-source resolution)
  app/api/v1/endpoints.py      (cache resolution chain and orchestrator)

Python strings are modelled as `List Char` (a Python `str` is a sequence of
code points); Python dicts that the code treats as open string-keyed maps are
modelled as association lists in insertion order, with lookup returning the
first binding, exactly as the code observes them through `in`, `[]` and
`.items()`.
-/

set_option linter.unnecessarySeqFocus false

namespace MenuExtractor

/-- Python strings: sequences of unicode code points. -/
abbrev Str := List Char

/-- A single menu item as produced by the structuring backend
(name, description, half/full price, currency, cuisine, spicy, bestseller).
Merging and counting treat items atomically, so only equality matters here. -/
structure MenuItem where
  name : Str
  description : Str
  price_half : Str
  price_full : Str
  currency : Str
  cuisine : Str
  spicy : Bool
  bestseller : Bool
deriving DecidableEq, Repr

/-- A JSON value sitting in a category slot of a parsed chunk: either a list
of items or some non-list value (the code checks `isinstance(items, list)`). -/
inductive PyVal where
  | arr (xs : List MenuItem)
  | other
deriving DecidableEq, Repr

/-- A veg-group dict: category key -> value, in insertion order. -/
abbrev Group := List (String × PyVal)

/-- A menu dict: veg-group key -> group dict, in insertion order. -/
abbrev Md := List (String × Group)

/-- Dict lookup: first binding for the key, mirroring Python `d[k]` / `d.get(k)`. -/
def dictLookup (k : String) : List (String × α) → Option α
  | [] => none
  | (k', v) :: rest => if k' = k then some v else dictLookup k rest

/-- Python `k in d`. -/
def dictHas (k : String) (d : List (String × α)) : Bool :=
  (dictLookup k d).isSome

/-- In-place update of the first binding of `k`, mirroring mutation of `d[k]`. -/
def dictUpdate (k : String) (f : α → α) : List (String × α) → List (String × α)
  | [] => []
  | (k', v) :: rest => if k' = k then (k', f v) :: rest else (k', v) :: dictUpdate k f rest

/-- The keys of a dict in order. -/
def dictKeys (d : List (String × α)) : List String :=
  d.map (·.1)

/-- The two veg-group keys iterated by `_merge_menus`, `_count_items` and the
store-hit check in `endpoints.py`. -/
def vegTypes : List String := ["vegetarian", "non_vegetarian"]

/-- Category slots of the vegetarian group in `combined_menu` (normalizer.py). -/
def vegCats : List String :=
  ["starters", "main_course", "rice_and_biryani", "breads", "desserts", "beverages"]

/-- Category slots of the non-vegetarian group in `combined_menu` (normalizer.py). -/
def nonvegCats : List String :=
  ["starters", "main_course", "seafood", "rice_and_biryani", "desserts", "beverages"]

/-- The empty `combined_menu` literal that `normalize` starts merging into. -/
def emptyCombinedMenu : Md :=
  [("vegetarian", vegCats.map (fun c => (c, PyVal.arr []))),
   ("non_vegetarian", nonvegCats.map (fun c => (c, PyVal.arr [])))]

/-- Python `target[veg_type][category].extend(items)`: appends onto a list
slot; a non-list slot is left unchanged (the running target's slots are always
lists in every reachable state of `normalize`). -/
def extendVal (xs : List MenuItem) : PyVal → PyVal
  | .arr ys => .arr (ys ++ xs)
  | .other => .other

/-- Inner loop of `_merge_menus` over one veg group: for each
`(category, items)` of the source group, if `items` is a list and `category`
is a key of the target group, extend the target slot; otherwise drop it. -/
def mergeGroup (tg sg : Group) : Group :=
  sg.foldl
    (fun acc e =>
      match e.2 with
      | .arr xs => if dictHas e.1 acc then dictUpdate e.1 (extendVal xs) acc else acc
      | .other => acc)
    tg

/-- `_merge_menus(target, source)` (normalizer.py lines 114-120): iterate the
two fixed veg-group keys; group keys of the source outside them are ignored.
When the key is absent from the target the group is skipped (in `normalize`
the target always carries both groups). -/
def mergeMenus (target source : Md) : Md :=
  vegTypes.foldl
    (fun tgt vt =>
      match dictLookup vt source with
      | some sg => if dictHas vt tgt then dictUpdate vt (fun tg => mergeGroup tg sg) tgt else tgt
      | none => tgt)
    target

/-- Length contributed by one slot value in `_count_items`. -/
def arrLen : PyVal → Nat
  | .arr xs => xs.length
  | .other => 0

/-- Item count of one veg group: sum of lengths of its list slots. -/
def countGroup (g : Group) : Nat :=
  (g.map (fun e => arrLen e.2)).sum

/-- `_count_items(menu)` (normalizer.py lines 122-130): total number of items
across the list slots of the two veg groups. -/
def countItems (m : Md) : Nat :=
  (vegTypes.map (fun vt =>
    match dictLookup vt m with
    | some g => countGroup g
    | none => 0)).sum

/-- The `has_items` check of endpoints.py lines 43-51: some category slot of
either veg group is a non-empty list. -/
def hasItems (m : Md) : Bool :=
  vegTypes.any (fun vt =>
    match dictLookup vt m with
    | some g => g.any (fun e =>
        match e.2 with
        | .arr xs => !xs.isEmpty
        | .other => false)
    | none => false)

/-- The item list sitting in one veg-group/category slot (empty when the slot
is absent or not a list). -/
def slotItems (m : Md) (vt c : String) : List MenuItem :=
  match dictLookup vt m with
  | some g =>
      match dictLookup c g with
      | some (.arr xs) => xs
      | _ => []
  | none => []

/-- The merge loop of `normalize` (normalizer.py lines 172-174): fold the
per-chunk results into the fresh `combined_menu`, skipping failed chunks. -/
def mergeResults (results : List (Option Md)) : Md :=
  results.foldl
    (fun acc r =>
      match r with
      | some m => mergeMenus acc m
      | none => acc)
    emptyCombinedMenu

/-! ### Chunking (`_split_text`, normalizer.py lines 99-112) -/

/-- Python `text.split("\x5cn\x5cn")`: split on non-overlapping occurrences of
the double newline, scanning left to right. -/
def splitPara : Str → List Str
  | [] => [[]]
  | [c] => [[c]]
  | c1 :: c2 :: rest =>
    if c1 = '\n' ∧ c2 = '\n' then
      [] :: splitPara rest
    else
      match splitPara (c2 :: rest) with
      | [] => [[c1]]
      | h :: t => (c1 :: h) :: t

/-- The whitespace set of Python `str.strip()` (ASCII portion). -/
def pyIsSpace (c : Char) : Bool :=
  c = ' ' || c = '\t' || c = '\n' || c = '\r' || c = '\x0b' || c = '\x0c'

/-- Python `s.strip()`: remove whitespace from both ends (trailing end first;
the two ends are independent so the order is immaterial). -/
def pyStrip (s : Str) : Str :=
  ((s.reverse.dropWhile pyIsSpace).reverse).dropWhile pyIsSpace

/-- The double-newline separator re-appended after every accumulated paragraph. -/
def nl2 : Str := ['\n', '\n']

/-- One iteration of the paragraph loop of `_split_text`: the state is
(chunks emitted so far, current accumulator). -/
def splitStep (chunk_size : Nat) (st : List Str × Str) (para : Str) : List Str × Str :=
  if st.2.length + para.length < chunk_size then
    (st.1, st.2 ++ para ++ nl2)
  else
    ((if st.2.isEmpty then st.1 else st.1 ++ [pyStrip st.2]), para ++ nl2)

/-- `_split_text(text, chunk_size)`: greedy paragraph accumulation, a final
flush of the accumulator, and a hard-truncation fallback when no chunk was
produced. -/
def splitTextPy (text : Str) (chunk_size : Nat) : List Str :=
  let r := (splitPara text).foldl (splitStep chunk_size) ([], [])
  let chunks := if r.2.isEmpty then r.1 else r.1 ++ [pyStrip r.2]
  if chunks.isEmpty then [text.take chunk_size] else chunks

/-! ### Normalization (`normalize`, normalizer.py lines 151-179) -/

/-- Outcome of `normalize`: either an error payload or the merged menu with
its item count and chunk count. -/
inductive NormResult where
  | err (msg : String)
  | ok (menu : Md) (items_count : Nat) (chunks : Nat)
deriving DecidableEq, Repr

/-- `normalize(raw_text, ...)`: guard on a configured model, guard on the
minimum corpus length (50 characters), then chunk, send every chunk to the
structuring backend concurrently (gather-all), and merge the successful
results. `backend i c` is the parsed menu of chunk `i` with text `c`, or
`none` for a failed call or unparsable output. -/
def normalize (configured : Bool) (backend : Nat → Str → Option Md) (raw : Str) : NormResult :=
  if !configured then .err "Gemini not configured"
  else if raw.isEmpty || raw.length < 50 then .err "Insufficient text"
  else
    let chunks := splitTextPy raw 2000
    let results := chunks.enum.map (fun e => backend e.1 e.2)
    let combined := mergeResults results
    .ok combined (countItems combined) chunks.length

/-- The chunk texts `normalize` hands to the structuring backend: one call
per chunk, none at all when a guard fails first. -/
def backendCalls (configured : Bool) (raw : Str) : List Str :=
  if !configured then []
  else if raw.isEmpty || raw.length < 50 then []
  else splitTextPy raw 2000

/-! ### OCR fan-out (`process_images`, ocr.py lines 71-106) -/

/-- The separator joined between per-image text blocks. -/
def sepStr : Str := "\n\n---\n\n".toList

/-- The recombination step of `process_images` (ocr.py lines 91-99) applied
to the gathered `(index, text)` pairs: re-sort by original index, keep the
entries with non-empty text as the per-image items, and join their texts. -/
def combineOcr (ocr_results : List (Nat × Str)) : List (Nat × Str) × Str :=
  let sorted := List.insertionSort (fun a b : Nat × Str => a.1 ≤ b.1) ocr_results
  let items := sorted.filter (fun e => !e.2.isEmpty)
  (items, List.intercalate sepStr (items.map (·.2)))

/-- `process_images(image_urls)` with `texts[i]` the OCR outcome for the i-th
URL (the empty string for a failing call or an image with no text, per
`_ocr_image_from_url`): `asyncio.gather` yields the `(index, text)` pairs in
task-submission order, which `combineOcr` then recombines. -/
def processImages (texts : List Str) : List (Nat × Str) × Str :=
  combineOcr texts.enum

/-! ### Cache resolution chain (endpoints.py lines 27-70) -/

/-- A document as held by either tier: the `menu` value (absent or a dict)
and the `items_count` field of its `meta` (endpoints.py reads exactly these). -/
structure CacheDoc where
  menu : Option Md
  meta_items_count : Nat
deriving DecidableEq, Repr

/-- Python truthiness of `doc.get("menu")`: present and a non-empty dict. -/
def menuTruthy (m : Option Md) : Bool :=
  match m with
  | none => false
  | some md => !md.isEmpty

/-- Python truthiness of `request.restaurant_name`: present and non-empty. -/
def nameTruthy (n : Option Str) : Bool :=
  match n with
  | none => false
  | some s => !s.isEmpty

/-- The fast-cache hit test (endpoints.py line 34):
`cached and cached.get("menu") and cached.get("meta", {}).get("items_count", 0) > 0`. -/
def fastHit (d : Option CacheDoc) : Bool :=
  match d with
  | none => false
  | some doc => menuTruthy doc.menu && decide (0 < doc.meta_items_count)

/-- The durable-store hit test (endpoints.py lines 42-52): the stored `menu`
is truthy and some category slot of either veg group is a non-empty list. -/
def storeHit (d : Option CacheDoc) : Bool :=
  match d with
  | none => false
  | some doc => menuTruthy doc.menu && hasItems (doc.menu.getD [])

/-- Where the returned document came from. -/
inductive Origin where
  | cache
  | store
  | fresh
deriving DecidableEq, Repr

/-- The resolution chain of `extract_menu` (endpoints.py lines 27-70):
both tier lookups are gated on a truthy restaurant name; a fast-cache hit
returns immediately; otherwise a durable-store hit; otherwise fresh
extraction. The result is the origin together with whether each tier was
read (fast cache, durable store). -/
def resolveMenuRequest (name : Option Str) (fastDoc storeDoc : Option CacheDoc) :
    Origin × Bool × Bool :=
  if nameTruthy name then
    if fastHit fastDoc then (.cache, true, false)
    else if storeHit storeDoc then (.store, true, true)
    else (.fresh, true, true)
  else (.fresh, false, false)

/-! ### Durable-store fuzzy lookup (mongo_service.py lines 72-99) -/

/-- A stored document's identity fields, as matched by `get_menu`. -/
structure MenuDocRec where
  restaurant_name : Str
  location : Str
deriving DecidableEq, Repr

/-- Modelled from the spec: the durable store's fuzzy find runs outside the
repository (MongoDB executes the `$regex` query that `get_menu` builds from
the raw, unescaped query string with the case-insensitive option). Spec
section 9 records that the query string acts as a search pattern. Modelled
here for patterns built from literal characters and the `.` wildcard, which
matches any character except a newline; matching a pattern character is
case-insensitive. -/
def patMatchAt : Str → Str → Bool
  | [], _ => true
  | _ :: _, [] => false
  | p :: ps, c :: cs =>
    ((p = '.' && c ≠ '\n') || p.toLower = c.toLower) && patMatchAt ps cs

/-- Modelled from the spec: unanchored search, the pattern may match at any
position of the text (MongoDB `$regex` semantics). -/
def regexSearch (pat : Str) : Str → Bool
  | [] => patMatchAt pat []
  | c :: cs => patMatchAt pat (c :: cs) || regexSearch pat cs

/-- Case-insensitive literal prefix test, used to express the spec's safe
"contains" semantics for comparison with the pattern semantics above. -/
def isPrefixOfCI : Str → Str → Bool
  | [], _ => true
  | _ :: _, [] => false
  | p :: ps, c :: cs => p.toLower = c.toLower && isPrefixOfCI ps cs

/-- Case-insensitive literal substring test: the spec's safe "contains"
semantics, where the query string is treated as literal text. -/
def containsCI (q : Str) : Str → Bool
  | [] => isPrefixOfCI q []
  | c :: cs => isPrefixOfCI q (c :: cs) || containsCI q cs

/-- The filter `get_menu` builds (mongo_service.py lines 87-89): name must
match as a case-insensitive pattern; a truthy query location must match the
stored location the same way. -/
def docMatches (qname qloc : Str) (d : MenuDocRec) : Bool :=
  regexSearch qname d.restaurant_name && (qloc.isEmpty || regexSearch qloc d.location)

/-- `get_menu(restaurant_name, location)` (mongo_service.py lines 72-99):
`None` for a falsy name, otherwise the first stored document matching the
built query. -/
def getMenu (qname : Option Str) (qloc : Str) (store : List MenuDocRec) : Option MenuDocRec :=
  if !nameTruthy qname then none
  else store.find? (docMatches (qname.getD []) qloc)

/-! ### Image-source resolution and the orchestrator
(serpapi_service.py lines 72-137, endpoints.py lines 74-168) -/

/-- The place record returned by the maps search, as read by
`extract_menu_images`. -/
structure Place where
  title : Option Str
  address : Str
  data_id : Option Str
deriving DecidableEq, Repr

/-- What `extract_menu_images` returns, as read back by the endpoint: the
`error` value if that key is present, and the `image_urls` list (the key is
absent in the not-found branch; the endpoint reads it with `.get`, so absence
and the empty list are observed identically). -/
structure SerpResult where
  error : Option Str
  restaurant : Option Str
  image_urls : List Str
deriving DecidableEq, Repr

/-- `extract_menu_images` (serpapi_service.py lines 72-137) for the
endpoint's call with `max_images=0` (all photos): `place` is the search
outcome and `photos[j]` the `image` field of the j-th photo of the menu
category (absent or empty strings are dropped). -/
def extractMenuImages (restaurant_name : Option Str) (place : Option Place)
    (photos : List (Option Str)) : SerpResult :=
  match place with
  | none =>
      { error := some "Restaurant not found on Google Maps".toList,
        restaurant := none, image_urls := [] }
  | some p =>
      let final_name := p.title.getD (restaurant_name.getD "Unknown Restaurant".toList)
      match p.data_id with
      | none =>
          { error := some "No data_id found".toList,
            restaurant := some final_name, image_urls := [] }
      | some _ =>
          { error := none, restaurant := some final_name,
            image_urls := photos.filterMap (fun ph =>
              match ph with
              | some u => if u.isEmpty then none else some u
              | none => none) }

/-- How a fresh extraction run ends (endpoints.py lines 88-168): a 404 when
the serp result carries an error and no image URLs; a degraded "no text
extracted" response when the combined OCR corpus is empty; otherwise the
normal response built from the normalizer's output (`menu` is absent and the
count 0 when normalization returned an error payload). -/
inductive PipeOutcome where
  | notFound (msg : Str)
  | noText
  | done (menu : Option Md) (items_count : Nat)
deriving DecidableEq, Repr

/-- The fresh-extraction path of `extract_menu` after the serp call
(endpoints.py lines 88-168): `ocr u` is the OCR text of image URL `u`; at
most 10 URLs are processed. -/
def runPipeline (serp : SerpResult) (ocr : Str → Str) (configured : Bool)
    (backend : Nat → Str → Option Md) : PipeOutcome :=
  if serp.error.isSome && serp.image_urls.isEmpty then
    .notFound (serp.error.getD [])
  else
    let texts := (serp.image_urls.take 10).map ocr
    let combined := (processImages texts).2
    if combined.isEmpty then .noText
    else
      match normalize configured backend combined with
      | .err _ => .done none 0
      | .ok m c _ => .done (some m) c

/-! ### Dict lemmas -/

theorem dictLookup_dictUpdate_self (k : String) (f : α → α) (d : List (String × α)) :
    dictLookup k (dictUpdate k f d) = (dictLookup k d).map f := by
  induction d with
  | nil => rfl
  | cons e rest ih =>
    obtain ⟨k', v⟩ := e
    by_cases h : k' = k
    · simp [dictUpdate, dictLookup, h]
    · simp [dictUpdate, dictLookup, h, ih]

theorem dictLookup_dictUpdate_ne {k' k : String} (h : k' ≠ k) (f : α → α)
    (d : List (String × α)) :
    dictLookup k (dictUpdate k' f d) = dictLookup k d := by
  induction d with
  | nil => rfl
  | cons e rest ih =>
    obtain ⟨k0, v⟩ := e
    by_cases h0 : k0 = k'
    · subst h0
      simp [dictUpdate, dictLookup, h]
    · by_cases h1 : k0 = k <;> simp [dictUpdate, dictLookup, h0, h1, Ne.symm h, ih]

theorem dictKeys_dictUpdate (k : String) (f : α → α) (d : List (String × α)) :
    dictKeys (dictUpdate k f d) = dictKeys d := by
  induction d with
  | nil => rfl
  | cons e rest ih =>
    obtain ⟨k', v⟩ := e
    by_cases h : k' = k
    · simp [dictUpdate, dictKeys, h]
    · simp only [dictUpdate, if_neg h, dictKeys, List.map_cons]
      simpa [dictKeys] using ih

theorem dictHas_iff_mem_keys (k : String) (d : List (String × α)) :
    dictHas k d = true ↔ k ∈ dictKeys d := by
  induction d with
  | nil => simp [dictHas, dictLookup, dictKeys]
  | cons e rest ih =>
    obtain ⟨k', v⟩ := e
    by_cases h : k' = k
    · simp [dictHas, dictLookup, dictKeys, h]
    · simp [dictHas, dictLookup, dictKeys, h, Ne.symm h] at ih ⊢
      exact ih

theorem dictHas_congr_keys {d1 d2 : List (String × α)}
    (h : dictKeys d1 = dictKeys d2) (k : String) :
    dictHas k d1 = dictHas k d2 := by
  by_cases h1 : dictHas k d1 = true
  · have := (dictHas_iff_mem_keys k d2).mpr (h ▸ (dictHas_iff_mem_keys k d1).mp h1)
    rw [h1, this]
  · have h1' : ¬ k ∈ dictKeys d2 := by
      rw [← h]
      intro hm
      exact h1 ((dictHas_iff_mem_keys k d1).mpr hm)
    have : ¬ dictHas k d2 = true := fun hc => h1' ((dictHas_iff_mem_keys k d2).mp hc)
    simp only [Bool.not_eq_true] at h1 this
    rw [h1, this]

theorem dictUpdate_eq_of_fix {k : String} {d : List (String × α)} {v : α} {f : α → α}
    (h : dictLookup k d = some v) (hf : f v = v) :
    dictUpdate k f d = d := by
  induction d with
  | nil => rfl
  | cons e rest ih =>
    obtain ⟨k', w⟩ := e
    by_cases hk : k' = k
    · subst hk
      simp [dictLookup] at h
      subst h
      simp [dictUpdate, hf]
    · simp only [dictLookup, if_neg hk] at h
      simp [dictUpdate, hk, ih h]

/-! ### `mergeGroup` characterization -/

/-- The items a source group contributes to slot `c` (entries for `c` whose
value is a list, concatenated in source order). -/
def contribArr (c : String) (sg : Group) : List MenuItem :=
  sg.foldr (fun e acc => (if e.1 = c then (match e.2 with | .arr xs => xs | .other => []) else []) ++ acc) []

theorem contribArr_cons (c : String) (e : String × PyVal) (sg : Group) :
    contribArr c (e :: sg) =
      (if e.1 = c then (match e.2 with | .arr xs => xs | .other => []) else []) ++ contribArr c sg := by
  rfl

theorem extendVal_extendVal (xs ys : List MenuItem) (v : PyVal) :
    extendVal ys (extendVal xs v) = extendVal (xs ++ ys) v := by
  cases v <;> simp [extendVal]

theorem extendVal_nil (v : PyVal) : extendVal [] v = v := by
  cases v <;> simp [extendVal]

theorem mergeGroup_nil (tg : Group) : mergeGroup tg [] = tg := rfl

theorem mergeGroup_cons (tg : Group) (e : String × PyVal) (sg : Group) :
    mergeGroup tg (e :: sg) =
      mergeGroup
        (match e.2 with
         | .arr xs => if dictHas e.1 tg then dictUpdate e.1 (extendVal xs) tg else tg
         | .other => tg) sg := by
  cases h : e.2 <;> simp [mergeGroup, h]

theorem dictKeys_mergeGroup (tg sg : Group) :
    dictKeys (mergeGroup tg sg) = dictKeys tg := by
  induction sg generalizing tg with
  | nil => rfl
  | cons e rest ih =>
    rw [mergeGroup_cons]
    cases h : e.2 with
    | arr xs =>
      by_cases hh : dictHas e.1 tg <;>
        simp [hh, ih, dictKeys_dictUpdate]
    | other => simp [ih]

theorem dictLookup_mergeGroup (c : String) (tg sg : Group) :
    dictLookup c (mergeGroup tg sg) =
      (dictLookup c tg).map (fun v => extendVal (contribArr c sg) v) := by
  induction sg generalizing tg with
  | nil =>
    rw [mergeGroup_nil]
    cases h : dictLookup c tg <;> simp [contribArr, extendVal_nil]
  | cons e rest ih =>
    rw [mergeGroup_cons, contribArr_cons]
    cases hv : e.2 with
    | other =>
      by_cases he : e.1 = c <;> simp [he, ih]
    | arr xs =>
      by_cases hh : dictHas e.1 tg
      · simp only [hh, if_pos]
        rw [ih]
        by_cases he : e.1 = c
        · subst he
          rw [dictLookup_dictUpdate_self]
          cases hl : dictLookup e.1 tg <;>
            simp [extendVal_extendVal]
        · rw [dictLookup_dictUpdate_ne he]
          simp [he]
      · simp only [hh, Bool.false_eq_true, if_false]
        rw [ih]
        by_cases he : e.1 = c
        · subst he
          have : dictLookup e.1 tg = none := by
            cases hl : dictLookup e.1 tg with
            | none => rfl
            | some v => exact absurd (by simp [dictHas, hl]) hh
          simp [this]
        · simp [he]

/-! ### Count lemmas for `mergeGroup` -/

/-- Whether the first binding of `c` in a group is a list slot. -/
def isArrSlot (tg : Group) (c : String) : Bool :=
  match dictLookup c tg with
  | some (.arr _) => true
  | _ => false

/-- The number of items a source group adds to a target group with the given
slot shapes: only entries that are lists and land on an existing list slot
count. -/
def contribCount (sg tg : Group) : Nat :=
  (sg.map (fun e => if isArrSlot tg e.1 then arrLen e.2 else 0)).sum

theorem arrLen_extendVal (xs : List MenuItem) (v : PyVal) :
    arrLen (extendVal xs v) = arrLen v + (if isArrSlot [("x", v)] "x" then xs.length else 0) := by
  cases v <;> simp [arrLen, extendVal, isArrSlot, dictLookup]

theorem isArrSlot_cons_ne {k c : String} (h : k ≠ c) (v : PyVal) (rest : Group) :
    isArrSlot ((k, v) :: rest) c = isArrSlot rest c := by
  simp [isArrSlot, dictLookup, h]

theorem countGroup_dictUpdate_extendVal (c : String) (xs : List MenuItem) (tg : Group) :
    countGroup (dictUpdate c (extendVal xs) tg) =
      countGroup tg + (if isArrSlot tg c then xs.length else 0) := by
  induction tg with
  | nil => simp [dictUpdate, countGroup, isArrSlot, dictLookup]
  | cons e rest ih =>
    obtain ⟨k, v⟩ := e
    by_cases hk : k = c
    · subst hk
      cases v <;>
        simp [dictUpdate, countGroup, isArrSlot, dictLookup, arrLen, extendVal] <;> omega
    · simp only [dictUpdate, if_neg hk, countGroup, List.map_cons, List.sum_cons]
      simp only [countGroup] at ih
      rw [ih, isArrSlot_cons_ne hk]
      omega

theorem isArrSlot_dictUpdate_extendVal (c c' : String) (xs : List MenuItem) (tg : Group) :
    isArrSlot (dictUpdate c (extendVal xs) tg) c' = isArrSlot tg c' := by
  by_cases h : c = c'
  · subst h
    unfold isArrSlot
    rw [dictLookup_dictUpdate_self]
    cases hl : dictLookup c tg with
    | none => rfl
    | some v => cases v <;> simp [extendVal]
  · unfold isArrSlot
    rw [dictLookup_dictUpdate_ne h]

theorem isArrSlot_mergeGroup (tg sg : Group) (c : String) :
    isArrSlot (mergeGroup tg sg) c = isArrSlot tg c := by
  unfold isArrSlot
  rw [dictLookup_mergeGroup]
  cases hl : dictLookup c tg with
  | none => rfl
  | some v => cases v <;> simp [extendVal]

theorem contribCount_congr (sg : Group) {tg tg' : Group}
    (h : ∀ c, isArrSlot tg c = isArrSlot tg' c) :
    contribCount sg tg = contribCount sg tg' := by
  unfold contribCount
  congr 1
  apply List.map_congr_left
  intro e _
  rw [h e.1]

theorem countGroup_mergeGroup (tg sg : Group) :
    countGroup (mergeGroup tg sg) = countGroup tg + contribCount sg tg := by
  induction sg generalizing tg with
  | nil => simp [mergeGroup_nil, contribCount]
  | cons e rest ih =>
    rw [mergeGroup_cons]
    obtain ⟨c, v⟩ := e
    cases hv : v with
    | other =>
      simp only
      rw [ih]
      simp [contribCount, arrLen]
    | arr xs =>
      by_cases hh : dictHas c tg
      · simp only [hh, if_pos]
        rw [ih, countGroup_dictUpdate_extendVal]
        have hc : contribCount rest (dictUpdate c (extendVal xs) tg) = contribCount rest tg :=
          contribCount_congr rest (fun c' => isArrSlot_dictUpdate_extendVal c c' xs tg)
        rw [hc]
        simp [contribCount, arrLen, Nat.add_assoc, Nat.add_comm, Nat.add_left_comm]
      · simp only [hh, Bool.false_eq_true, if_false]
        rw [ih]
        have : isArrSlot tg c = false := by
          unfold isArrSlot
          cases hl : dictLookup c tg with
          | none => rfl
          | some w => exact absurd (by simp [dictHas, hl]) hh
        simp [contribCount, this, arrLen]

/-! ### `mergeMenus` characterization -/

/-- One veg-group step of `_merge_menus`. -/
def mergeStep (source tgt : Md) (vt : String) : Md :=
  match dictLookup vt source with
  | some sg => if dictHas vt tgt then dictUpdate vt (fun tg => mergeGroup tg sg) tgt else tgt
  | none => tgt

theorem mergeMenus_eq (t s : Md) :
    mergeMenus t s = mergeStep s (mergeStep s t "vegetarian") "non_vegetarian" := rfl

/-- Merging an optional source group into a target group. -/
def optionMergeGroup (so : Option Group) (g : Group) : Group :=
  match so with
  | some sg => mergeGroup g sg
  | none => g

theorem dictKeys_mergeStep (s t : Md) (vt : String) :
    dictKeys (mergeStep s t vt) = dictKeys t := by
  unfold mergeStep
  cases dictLookup vt s with
  | none => rfl
  | some sg =>
    by_cases hh : dictHas vt t <;> simp [hh, dictKeys_dictUpdate]

theorem dictLookup_mergeStep_self (s t : Md) (vt : String) :
    dictLookup vt (mergeStep s t vt) =
      (dictLookup vt t).map (optionMergeGroup (dictLookup vt s)) := by
  unfold mergeStep
  cases hs : dictLookup vt s with
  | none =>
    cases dictLookup vt t <;> simp [optionMergeGroup]
  | some sg =>
    by_cases hh : dictHas vt t
    · simp only [hh, if_pos]
      rw [dictLookup_dictUpdate_self]
      cases dictLookup vt t <;> simp [optionMergeGroup]
    · have hnone : dictLookup vt t = none := by
        cases hl : dictLookup vt t with
        | none => rfl
        | some g => exact absurd (by simp [dictHas, hl]) hh
      simp [hh, hnone]

theorem dictLookup_mergeStep_ne {vt' vt : String} (h : vt' ≠ vt) (s t : Md) :
    dictLookup vt (mergeStep s t vt') = dictLookup vt t := by
  unfold mergeStep
  cases dictLookup vt' s with
  | none => rfl
  | some sg =>
    by_cases hh : dictHas vt' t
    · simp only [hh, if_pos]
      exact dictLookup_dictUpdate_ne h _ t
    · simp [hh]

theorem dictKeys_mergeMenus (t s : Md) : dictKeys (mergeMenus t s) = dictKeys t := by
  rw [mergeMenus_eq, dictKeys_mergeStep, dictKeys_mergeStep]

theorem dictLookup_mergeMenus_veg (t s : Md) :
    dictLookup "vegetarian" (mergeMenus t s) =
      (dictLookup "vegetarian" t).map (optionMergeGroup (dictLookup "vegetarian" s)) := by
  rw [mergeMenus_eq, dictLookup_mergeStep_ne (by decide), dictLookup_mergeStep_self]

theorem dictLookup_mergeMenus_nonveg (t s : Md) :
    dictLookup "non_vegetarian" (mergeMenus t s) =
      (dictLookup "non_vegetarian" t).map (optionMergeGroup (dictLookup "non_vegetarian" s)) := by
  rw [mergeMenus_eq, dictLookup_mergeStep_self, dictLookup_mergeStep_ne (by decide)]

theorem dictLookup_mergeMenus_other {k : String} (h1 : k ≠ "vegetarian")
    (h2 : k ≠ "non_vegetarian") (t s : Md) :
    dictLookup k (mergeMenus t s) = dictLookup k t := by
  rw [mergeMenus_eq, dictLookup_mergeStep_ne (Ne.symm h2), dictLookup_mergeStep_ne (Ne.symm h1)]

/-- Item count of an optional group. -/
def countOpt (o : Option Group) : Nat :=
  match o with
  | some g => countGroup g
  | none => 0

theorem countItems_eq (m : Md) :
    countItems m =
      countOpt (dictLookup "vegetarian" m) + countOpt (dictLookup "non_vegetarian" m) := by
  simp only [countItems, vegTypes, List.map_cons, List.map_nil, List.sum_cons, List.sum_nil,
    countOpt, Nat.add_zero]

/-- The number of items a chunk's veg group adds during one merge, given the
target's slot shapes. -/
def menuContrib (t s : Md) (vt : String) : Nat :=
  match dictLookup vt t, dictLookup vt s with
  | some g, some sg => contribCount sg g
  | _, _ => 0

theorem countOpt_map_optionMergeGroup (ot : Option Group) (os : Option Group) :
    countOpt (ot.map (optionMergeGroup os)) =
      countOpt ot + (match ot, os with
        | some g, some sg => contribCount sg g
        | _, _ => 0) := by
  cases ot with
  | none => rfl
  | some g =>
    cases os with
    | none => rfl
    | some sg => simp [countOpt, optionMergeGroup, countGroup_mergeGroup]

theorem countItems_mergeMenus (t s : Md) :
    countItems (mergeMenus t s) =
      countItems t + menuContrib t s "vegetarian" + menuContrib t s "non_vegetarian" := by
  rw [countItems_eq, countItems_eq, dictLookup_mergeMenus_veg, dictLookup_mergeMenus_nonveg,
    countOpt_map_optionMergeGroup, countOpt_map_optionMergeGroup]
  unfold menuContrib
  omega

theorem isArrSlot_optionMergeGroup (os : Option Group) (g : Group) (c : String) :
    isArrSlot (optionMergeGroup os g) c = isArrSlot g c := by
  cases os with
  | none => rfl
  | some sg => exact isArrSlot_mergeGroup g sg c

theorem menuContrib_mergeMenus (t r s : Md) (vt : String)
    (hlook : dictLookup vt (mergeMenus t r) =
      (dictLookup vt t).map (optionMergeGroup (dictLookup vt r))) :
    menuContrib (mergeMenus t r) s vt = menuContrib t s vt := by
  unfold menuContrib
  rw [hlook]
  cases dictLookup vt t with
  | none => rfl
  | some g =>
    cases dictLookup vt s with
    | none => rfl
    | some sg =>
      simp only [Option.map_some']
      exact contribCount_congr sg (fun c => isArrSlot_optionMergeGroup _ g c)

/-! ### Slot contents under merging -/

/-- The items a chunk's veg group adds to one category slot during a merge. -/
def menuSlotContrib (t s : Md) (vt c : String) : List MenuItem :=
  match dictLookup vt t, dictLookup vt s with
  | some g, some sg => if isArrSlot g c then contribArr c sg else []
  | _, _ => []

theorem slotItems_of_lookup (t s : Md) (vt c : String)
    (hlook : dictLookup vt (mergeMenus t s) =
      (dictLookup vt t).map (optionMergeGroup (dictLookup vt s))) :
    slotItems (mergeMenus t s) vt c = slotItems t vt c ++ menuSlotContrib t s vt c := by
  unfold slotItems menuSlotContrib
  rw [hlook]
  cases ht : dictLookup vt t with
  | none => rfl
  | some g =>
    cases hs : dictLookup vt s with
    | none => simp [optionMergeGroup]
    | some sg =>
      simp only [Option.map_some', optionMergeGroup]
      rw [dictLookup_mergeGroup]
      cases hl : dictLookup c g with
      | none => simp [isArrSlot, hl]
      | some v => cases v <;> simp [isArrSlot, hl, extendVal]

theorem menuSlotContrib_mergeMenus (t r s : Md) (vt c : String)
    (hlook : dictLookup vt (mergeMenus t r) =
      (dictLookup vt t).map (optionMergeGroup (dictLookup vt r))) :
    menuSlotContrib (mergeMenus t r) s vt c = menuSlotContrib t s vt c := by
  unfold menuSlotContrib
  rw [hlook]
  cases dictLookup vt t with
  | none => rfl
  | some g =>
    cases dictLookup vt s with
    | none => rfl
    | some sg =>
      simp only [Option.map_some']
      rw [isArrSlot_optionMergeGroup]

theorem slotItems_double_merge (m a b : Md) (vt c : String)
    (hlook : ∀ t s : Md, dictLookup vt (mergeMenus t s) =
      (dictLookup vt t).map (optionMergeGroup (dictLookup vt s))) :
    slotItems (mergeMenus (mergeMenus m a) b) vt c =
      slotItems m vt c ++ menuSlotContrib m a vt c ++ menuSlotContrib m b vt c := by
  rw [slotItems_of_lookup (mergeMenus m a) b vt c (hlook _ _),
    slotItems_of_lookup m a vt c (hlook _ _),
    menuSlotContrib_mergeMenus m a b vt c (hlook _ _)]

/-- Claim C6: for every pair of chunk results and every starting menu,
merging them in either order yields the same total item count and, for every
veg-group/category slot, the same multiset of items (only intra-slot order
may differ). -/
theorem mergeMenus_comm_upto_perm (m r1 r2 : Md) :
    countItems (mergeMenus (mergeMenus m r1) r2) =
      countItems (mergeMenus (mergeMenus m r2) r1)
    ∧ ∀ vt c, (slotItems (mergeMenus (mergeMenus m r1) r2) vt c : Multiset MenuItem) =
        (slotItems (mergeMenus (mergeMenus m r2) r1) vt c : Multiset MenuItem) := by
  constructor
  · have h1 : ∀ a b : Md, countItems (mergeMenus (mergeMenus m a) b) =
        countItems m + (menuContrib m a "vegetarian" + menuContrib m a "non_vegetarian")
          + (menuContrib m b "vegetarian" + menuContrib m b "non_vegetarian") := by
      intro a b
      rw [countItems_mergeMenus, countItems_mergeMenus,
        menuContrib_mergeMenus m a b "vegetarian" (dictLookup_mergeMenus_veg m a),
        menuContrib_mergeMenus m a b "non_vegetarian" (dictLookup_mergeMenus_nonveg m a)]
      omega
    rw [h1, h1]
    omega
  · intro vt c
    by_cases hv : vt = "vegetarian"
    · subst hv
      rw [slotItems_double_merge m r1 r2 _ c (fun t s => dictLookup_mergeMenus_veg t s),
        slotItems_double_merge m r2 r1 _ c (fun t s => dictLookup_mergeMenus_veg t s)]
      simp only [← Multiset.coe_add]
      exact add_right_comm _ _ _
    · by_cases hn : vt = "non_vegetarian"
      · subst hn
        rw [slotItems_double_merge m r1 r2 _ c (fun t s => dictLookup_mergeMenus_nonveg t s),
          slotItems_double_merge m r2 r1 _ c (fun t s => dictLookup_mergeMenus_nonveg t s)]
        simp only [← Multiset.coe_add]
        exact add_right_comm _ _ _
      · have hother : ∀ a b : Md, slotItems (mergeMenus (mergeMenus m a) b) vt c =
            slotItems m vt c := by
          intro a b
          unfold slotItems
          rw [dictLookup_mergeMenus_other hv hn, dictLookup_mergeMenus_other hv hn]
        rw [hother, hother]

/-! ### Shape invariant of the running menu -/

/-- The category vocabulary of one veg group. -/
def catsFor (vt : String) : List String :=
  if vt = "vegetarian" then vegCats else nonvegCats

/-- A menu dict whose keys are exactly the fixed vocabulary. -/
def wellShaped (m : Md) : Prop :=
  dictKeys m = vegTypes
  ∧ (∀ g, dictLookup "vegetarian" m = some g → dictKeys g = vegCats)
  ∧ (∀ g, dictLookup "non_vegetarian" m = some g → dictKeys g = nonvegCats)

theorem wellShaped_empty : wellShaped emptyCombinedMenu := by
  refine ⟨rfl, ?_, ?_⟩ <;>
    (intro g hg
     simp [emptyCombinedMenu, dictLookup] at hg
     subst hg
     decide)

theorem wellShaped_mergeMenus {m : Md} (s : Md) (h : wellShaped m) :
    wellShaped (mergeMenus m s) := by
  obtain ⟨hk, hv, hn⟩ := h
  refine ⟨by rw [dictKeys_mergeMenus, hk], ?_, ?_⟩
  · intro g hg
    rw [dictLookup_mergeMenus_veg] at hg
    cases ht : dictLookup "vegetarian" m with
    | none => rw [ht] at hg; exact absurd hg (by simp)
    | some g0 =>
      rw [ht] at hg
      simp only [Option.map_some', Option.some.injEq] at hg
      subst hg
      cases hs : dictLookup "vegetarian" s with
      | none => simpa [optionMergeGroup] using hv g0 ht
      | some sg =>
        simp only [optionMergeGroup, dictKeys_mergeGroup]
        exact hv g0 ht
  · intro g hg
    rw [dictLookup_mergeMenus_nonveg] at hg
    cases ht : dictLookup "non_vegetarian" m with
    | none => rw [ht] at hg; exact absurd hg (by simp)
    | some g0 =>
      rw [ht] at hg
      simp only [Option.map_some', Option.some.injEq] at hg
      subst hg
      cases hs : dictLookup "non_vegetarian" s with
      | none => simpa [optionMergeGroup] using hn g0 ht
      | some sg =>
        simp only [optionMergeGroup, dictKeys_mergeGroup]
        exact hn g0 ht

theorem wellShaped_foldResults (results : List (Option Md)) (acc : Md) (h : wellShaped acc) :
    wellShaped (results.foldl
      (fun acc r =>
        match r with
        | some m => mergeMenus acc m
        | none => acc) acc) := by
  induction results generalizing acc with
  | nil => exact h
  | cons r rest ih =>
    cases r with
    | none => exact ih acc h
    | some m => exact ih _ (wellShaped_mergeMenus m h)

theorem wellShaped_mergeResults (results : List (Option Md)) :
    wellShaped (mergeResults results) :=
  wellShaped_foldResults results emptyCombinedMenu wellShaped_empty

/-! ### Unknown keys are dropped -/

/-- A chunk result whose category keys (within the two recognized veg groups)
all lie outside the fixed vocabulary. -/
def outsideVocab (s : Md) : Prop :=
  ∀ vt ∈ vegTypes, ∀ e ∈ (dictLookup vt s).getD [], e.1 ∉ catsFor vt

theorem mergeGroup_id {tg sg : Group} (h : ∀ e ∈ sg, dictHas e.1 tg = false) :
    mergeGroup tg sg = tg := by
  induction sg with
  | nil => rfl
  | cons e rest ih =>
    rw [mergeGroup_cons]
    cases hv : e.2 with
    | arr xs =>
      have := h e (List.mem_cons_self e rest)
      simp only [this, Bool.false_eq_true, if_false]
      exact ih (fun e2 h2 => h e2 (List.mem_cons_of_mem e h2))
    | other => exact ih (fun e2 h2 => h e2 (List.mem_cons_of_mem e h2))

theorem mergeStep_id_of_outside {m s : Md} {vt : String} (hW : wellShaped m)
    (hvt : vt ∈ vegTypes)
    (hcats : ∀ g, dictLookup vt m = some g → dictKeys g = catsFor vt)
    (ho : outsideVocab s) :
    mergeStep s m vt = m := by
  unfold mergeStep
  cases hs : dictLookup vt s with
  | none => rfl
  | some sg =>
    have hhas : dictHas vt m = true := by
      rw [dictHas_iff_mem_keys, hW.1]
      exact hvt
    simp only [hhas, if_pos]
    obtain ⟨g, hg⟩ : ∃ g, dictLookup vt m = some g := by
      have := hhas
      unfold dictHas at this
      cases hl : dictLookup vt m with
      | none => rw [hl] at this; simp at this
      | some g => exact ⟨g, rfl⟩
    have hkeys : dictKeys g = catsFor vt := hcats g hg
    have hid : mergeGroup g sg = g := by
      apply mergeGroup_id
      intro e he
      have hmem : e ∈ (dictLookup vt s).getD [] := by rw [hs]; exact he
      have hout : e.1 ∉ catsFor vt := ho vt hvt e hmem
      cases hb : dictHas e.1 g with
      | false => rfl
      | true =>
        rw [dictHas_iff_mem_keys, hkeys] at hb
        exact absurd hb hout
    exact dictUpdate_eq_of_fix hg hid

theorem mergeMenus_id_of_outside {m : Md} {s : Md} (hW : wellShaped m)
    (ho : outsideVocab s) :
    mergeMenus m s = m := by
  rw [mergeMenus_eq]
  have h1 : mergeStep s m "vegetarian" = m := by
    apply mergeStep_id_of_outside hW (by simp [vegTypes]) _ ho
    intro g hg
    simpa [catsFor] using hW.2.1 g hg
  rw [h1]
  apply mergeStep_id_of_outside hW (by simp [vegTypes]) _ ho
  intro g hg
  simpa [catsFor] using hW.2.2 g hg

/-! ### Item counts versus the non-empty-slot check -/

theorem countGroup_pos_of_any {g : Group}
    (h : g.any (fun e =>
      match e.2 with
      | .arr xs => !xs.isEmpty
      | .other => false) = true) :
    0 < countGroup g := by
  induction g with
  | nil => simp at h
  | cons e rest ih =>
    simp only [List.any_cons, Bool.or_eq_true] at h
    cases h with
    | inl h1 =>
      cases hv : e.2 with
      | arr xs =>
        rw [hv] at h1
        have hlen : 0 < xs.length := by
          cases xs with
          | nil => simp at h1
          | cons a l => simp
        simp only [countGroup, List.map_cons, List.sum_cons, hv, arrLen]
        omega
      | other => rw [hv] at h1; simp at h1
    | inr h2 =>
      have := ih h2
      simp only [countGroup, List.map_cons, List.sum_cons]
      simp only [countGroup] at this
      omega

theorem countItems_pos_of_hasItems {m : Md} (h : hasItems m = true) : 0 < countItems m := by
  unfold hasItems at h
  simp only [vegTypes, List.any_cons, List.any_nil, Bool.or_false, Bool.or_eq_true] at h
  rw [countItems_eq]
  cases h with
  | inl h1 =>
    cases hl : dictLookup "vegetarian" m with
    | none => rw [hl] at h1; simp at h1
    | some g =>
      rw [hl] at h1
      simp only at h1
      have := countGroup_pos_of_any h1
      simp only [hl, countOpt]
      omega
  | inr h2 =>
    cases hl : dictLookup "non_vegetarian" m with
    | none => rw [hl] at h2; simp at h2
    | some g =>
      rw [hl] at h2
      simp only at h2
      have := countGroup_pos_of_any h2
      simp only [hl, countOpt]
      omega

theorem hasItems_false_of_count_zero {m : Md} (h : countItems m = 0) : hasItems m = false := by
  cases hh : hasItems m with
  | false => rfl
  | true => have := countItems_pos_of_hasItems hh; omega

instance (s : Md) : Decidable (outsideVocab s) := by
  unfold outsideVocab
  infer_instance

/-! ### Claim theorems -/

/-- Claim C1: a cached or stored document whose menu has total item count 0
is a miss at both tiers and the resolution chain falls through to fresh
extraction; a fast-cache hit needs item count strictly positive, a
durable-store hit needs a non-empty category slot in some veg group. The
`meta.items_count` field of a document written by the pipeline equals the
menu's computed item count, which the first hypothesis records. -/
theorem empty_menu_is_miss (doc : CacheDoc)
    (hmeta : doc.meta_items_count = countItems (doc.menu.getD [])) :
    (countItems (doc.menu.getD []) = 0 →
        fastHit (some doc) = false ∧ storeHit (some doc) = false ∧
        ∀ name, (resolveMenuRequest name (some doc) (some doc)).1 = .fresh)
    ∧ (fastHit (some doc) = true → 0 < countItems (doc.menu.getD []))
    ∧ (storeHit (some doc) = true → hasItems (doc.menu.getD []) = true) := by
  refine ⟨?_, ?_, ?_⟩
  · intro hzero
    have hfast : fastHit (some doc) = false := by
      simp [fastHit, hmeta, hzero]
    have hstore : storeHit (some doc) = false := by
      simp [storeHit, hasItems_false_of_count_zero hzero]
    refine ⟨hfast, hstore, ?_⟩
    intro name
    cases hn : nameTruthy name with
    | false => simp [resolveMenuRequest, hn]
    | true => simp [resolveMenuRequest, hn, hfast, hstore]
  · intro hf
    simp only [fastHit, Bool.and_eq_true, decide_eq_true_eq] at hf
    omega
  · intro hs
    simp only [storeHit, Bool.and_eq_true] at hs
    exact hs.2

/-- Claim C1 witness: a document holding the empty combined menu (item count
0, consistent meta) misses both tiers and resolves to fresh extraction. -/
theorem empty_menu_is_miss_witness :
    fastHit (some ⟨some emptyCombinedMenu, 0⟩) = false
    ∧ storeHit (some ⟨some emptyCombinedMenu, 0⟩) = false
    ∧ (resolveMenuRequest (some "Tandoori Treat".toList)
        (some ⟨some emptyCombinedMenu, 0⟩) (some ⟨some emptyCombinedMenu, 0⟩)).1 = .fresh := by
  have h := (empty_menu_is_miss ⟨some emptyCombinedMenu, 0⟩ (by decide)).1 (by decide)
  exact ⟨h.1, h.2.1, h.2.2 _⟩

/-- Claim C4: for every sequence of chunk results merged into the running
menu, the group and category keys stay exactly the fixed vocabulary, and a
chunk whose category keys lie outside the vocabulary leaves the menu and its
item count unchanged (dropped, zero contribution, no new slots). -/
theorem merged_keys_are_fixed_vocab (results : List (Option Md)) (s : Md) :
    dictKeys (mergeResults results) = vegTypes
    ∧ (∀ g, dictLookup "vegetarian" (mergeResults results) = some g → dictKeys g = vegCats)
    ∧ (∀ g, dictLookup "non_vegetarian" (mergeResults results) = some g → dictKeys g = nonvegCats)
    ∧ (outsideVocab s →
        mergeMenus (mergeResults results) s = mergeResults results
        ∧ countItems (mergeMenus (mergeResults results) s) = countItems (mergeResults results)) := by
  have hW := wellShaped_mergeResults results
  refine ⟨hW.1, hW.2.1, hW.2.2, ?_⟩
  intro ho
  have hid := mergeMenus_id_of_outside hW ho
  exact ⟨hid, by rw [hid]⟩

/-- Claim C4 witness: one concrete chunk merged in, then a chunk carrying
only an unknown group key and an unknown category key, which changes
nothing. -/
theorem merged_keys_are_fixed_vocab_witness :
    dictKeys (mergeResults [some [("vegetarian", [("starters", PyVal.arr [])])]]) = vegTypes
    ∧ (mergeMenus (mergeResults [some [("vegetarian", [("starters", PyVal.arr [])])]])
          [("vegetarian", [("weird_category", PyVal.arr [])]), ("junk_group", [])]
        = mergeResults [some [("vegetarian", [("starters", PyVal.arr [])])]]) := by
  have h := merged_keys_are_fixed_vocab [some [("vegetarian", [("starters", PyVal.arr [])])]]
    [("vegetarian", [("weird_category", PyVal.arr [])]), ("junk_group", [])]
  exact ⟨h.1, (h.2.2.2 (by decide)).1⟩

/-- Claim C5: a corpus shorter than the 50-character minimum yields the
"Insufficient text" error without any call to the structuring backend, and
the backend is called only when the corpus length is at least 50. -/
theorem short_corpus_insufficient (backend : Nat → Str → Option Md) (raw : Str) :
    (raw.length < 50 →
        normalize true backend raw = .err "Insufficient text"
        ∧ backendCalls true raw = [])
    ∧ (backendCalls true raw ≠ [] → 50 ≤ raw.length) := by
  constructor
  · intro h
    constructor <;> simp [normalize, backendCalls, h]
  · intro h
    by_contra hlt
    push_neg at hlt
    exact h (by simp [backendCalls, hlt])

/-- Claim C5 witness: a 10-character corpus returns the insufficient-text
error with no backend calls. -/
theorem short_corpus_insufficient_witness :
    normalize true (fun _ _ => some []) "0123456789".toList = .err "Insufficient text"
    ∧ backendCalls true "0123456789".toList = [] :=
  (short_corpus_insufficient (fun _ _ => some []) "0123456789".toList).1 (by decide)

/-- Claim C10: with no truthy restaurant name (URL-only request), neither
cache tier is read and the request always resolves to fresh extraction. -/
theorem url_only_bypasses_tiers (name : Option Str) (h : nameTruthy name = false)
    (fastDoc storeDoc : Option CacheDoc) :
    resolveMenuRequest name fastDoc storeDoc = (.fresh, false, false) := by
  simp [resolveMenuRequest, h]

/-- Claim C10 witness: a URL-only request bypasses two tiers that would both
hit if they were consulted. -/
theorem url_only_bypasses_tiers_witness :
    resolveMenuRequest none
        (some ⟨some [("vegetarian", [("starters",
          PyVal.arr [⟨"Paneer Tikka".toList, [], [], [], [], [], false, false⟩])])], 1⟩)
        (some ⟨some [("vegetarian", [("starters",
          PyVal.arr [⟨"Paneer Tikka".toList, [], [], [], [], [], false, false⟩])])], 1⟩)
      = (.fresh, false, false) :=
  url_only_bypasses_tiers none (by decide) _ _

/-! ### OCR recombination lemmas -/

theorem mem_enumFrom_fst_le {α : Type} {e : Nat × α} :
    ∀ {l : List α} {n : Nat}, e ∈ List.enumFrom n l → n ≤ e.1 := by
  intro l
  induction l with
  | nil => intro n h; simp [List.enumFrom] at h
  | cons x xs ih =>
    intro n h
    simp only [List.enumFrom, List.mem_cons] at h
    cases h with
    | inl h => subst h; exact Nat.le_refl n
    | inr h => exact Nat.le_trans (Nat.le_succ n) (ih h)

theorem pairwise_fst_lt_enumFrom {α : Type} (n : Nat) (l : List α) :
    List.Pairwise (fun a b : Nat × α => a.1 < b.1) (List.enumFrom n l) := by
  induction l generalizing n with
  | nil => simp [List.enumFrom]
  | cons x xs ih =>
    simp only [List.enumFrom]
    refine List.Pairwise.cons ?_ (ih (n + 1))
    intro b hb
    have := mem_enumFrom_fst_le hb
    simp only
    omega

theorem pairwise_fst_lt_enum {α : Type} (l : List α) :
    List.Pairwise (fun a b : Nat × α => a.1 < b.1) l.enum :=
  pairwise_fst_lt_enumFrom 0 l

theorem sorted_le_enum {α : Type} (l : List α) :
    List.Sorted (fun a b : Nat × α => a.1 ≤ b.1) l.enum :=
  (pairwise_fst_lt_enum l).imp (fun h => Nat.le_of_lt h)

theorem enumFrom_filter_map_snd (p : Str → Bool) :
    ∀ (n : Nat) (l : List Str),
      ((List.enumFrom n l).filter (fun e => p e.2)).map (·.2) = l.filter p := by
  intro n l
  induction l generalizing n with
  | nil => rfl
  | cons x xs ih =>
    simp only [List.enumFrom, List.filter_cons]
    by_cases hp : p x
    · simp only [hp, if_pos, List.map_cons, List.filter_cons]
      rw [ih (n + 1)]
    · simp only [hp, Bool.false_eq_true, if_false, List.filter_cons]
      rw [ih (n + 1)]

theorem enum_filter_map_snd (p : Str → Bool) (l : List Str) :
    (l.enum.filter (fun e => p e.2)).map (·.2) = l.filter p :=
  enumFrom_filter_map_snd p 0 l

theorem insertionSort_enum_eq {α : Type} (l : List α) :
    List.insertionSort (fun a b : Nat × α => a.1 ≤ b.1) l.enum = l.enum :=
  List.Sorted.insertionSort_eq (sorted_le_enum l)

theorem insertionSort_of_perm_enum {texts : List Str} {l : List (Nat × Str)}
    (hp : l.Perm texts.enum) :
    List.insertionSort (fun a b : Nat × Str => a.1 ≤ b.1) l = texts.enum := by
  haveI hanti : IsAntisymm (Nat × Str) (fun a b => a.1 < b.1) :=
    ⟨fun a b h1 h2 => absurd (Nat.lt_trans h1 h2) (Nat.lt_irrefl _)⟩
  haveI htot : IsTotal (Nat × Str) (fun a b => a.1 ≤ b.1) :=
    ⟨fun a b => Nat.le_total a.1 b.1⟩
  haveI htrans : IsTrans (Nat × Str) (fun a b => a.1 ≤ b.1) :=
    ⟨fun a b c => Nat.le_trans⟩
  have hperm : (List.insertionSort (fun a b : Nat × Str => a.1 ≤ b.1) l).Perm texts.enum :=
    (List.perm_insertionSort _ l).trans hp
  have hnodup : ((List.insertionSort (fun a b : Nat × Str => a.1 ≤ b.1) l).map Prod.fst).Nodup := by
    have h1 : ((List.insertionSort (fun a b : Nat × Str => a.1 ≤ b.1) l).map Prod.fst).Perm
        (texts.enum.map Prod.fst) := hperm.map Prod.fst
    rw [List.enum_map_fst] at h1
    exact h1.nodup_iff.mpr (List.nodup_range _)
  have hne : List.Pairwise (fun a b : Nat × Str => a.1 ≠ b.1)
      (List.insertionSort (fun a b : Nat × Str => a.1 ≤ b.1) l) :=
    (List.pairwise_map.mp hnodup)
  have hle : List.Sorted (fun a b : Nat × Str => a.1 ≤ b.1)
      (List.insertionSort (fun a b : Nat × Str => a.1 ≤ b.1) l) :=
    List.sorted_insertionSort _ l
  have hlt : List.Sorted (fun a b : Nat × Str => a.1 < b.1)
      (List.insertionSort (fun a b : Nat × Str => a.1 ≤ b.1) l) :=
    (hle.and hne).imp (fun h => Nat.lt_of_le_of_ne h.1 h.2)
  exact List.eq_of_perm_of_sorted hperm hlt (pairwise_fst_lt_enum texts)

/-- Claim C2 (amended): the gathered OCR results keep one slot per URL with
the empty string on failure, but the returned per-image items list keeps only
the entries with non-empty text (each still tagged with its original index),
so its length equals the number of non-empty texts, which is at most - and
not always equal to - the number of processed URLs. -/
theorem ocr_items_filtered (texts : List Str) :
    (processImages texts).1 = texts.enum.filter (fun e => !e.2.isEmpty)
    ∧ (processImages texts).1.length = (texts.filter (fun t => !t.isEmpty)).length
    ∧ (processImages texts).1.length ≤ texts.length := by
  have hitems : (processImages texts).1 = texts.enum.filter (fun e => !e.2.isEmpty) := by
    unfold processImages combineOcr
    simp only [insertionSort_enum_eq]
  have hlen : (processImages texts).1.length = (texts.filter (fun t => !t.isEmpty)).length := by
    rw [hitems, ← enumFrom_filter_map_snd (fun t => !t.isEmpty) 0 texts, List.length_map]
    rfl
  refine ⟨hitems, hlen, ?_⟩
  rw [hlen]
  exact Nat.le_trans (List.length_filter_le _ _) (Nat.le_refl _)

/-- Claim C2 counterexample: with OCR texts ["A", ""] (two processed URLs,
the second failing or empty), the returned per-image items list has a single
entry; the empty slot is removed. -/
theorem ocr_items_filtered_counterexample :
    (processImages ["A".toList, "".toList]).1.length = 1
    ∧ (["A".toList, "".toList] : List Str).length = 2
    ∧ (processImages ["A".toList, "".toList]).1 = [(0, "A".toList)] := by
  decide

/-- Claim C3: for every input list and every completion order of the
concurrent OCR calls (any permutation of the indexed results), the
recombination yields exactly the output for the submission order, and the
combined text is the non-empty per-image texts joined in original input
order with the fixed separator. -/
theorem ocr_order_invariant (texts : List Str) (results : List (Nat × Str))
    (hperm : results.Perm texts.enum) :
    combineOcr results = processImages texts
    ∧ (combineOcr results).2 =
        List.intercalate sepStr (texts.filter (fun t => !t.isEmpty)) := by
  have heq : combineOcr results = processImages texts := by
    unfold processImages combineOcr
    simp only [insertionSort_of_perm_enum hperm, insertionSort_enum_eq]
  refine ⟨heq, ?_⟩
  rw [heq]
  unfold processImages combineOcr
  simp only [insertionSort_enum_eq]
  rw [enum_filter_map_snd (fun t => !t.isEmpty) texts]

/-- Claim C3 witness: completion order [B, C, A] for inputs [A, B, C] still
produces the items and combined text of the original order. -/
theorem ocr_order_invariant_witness :
    combineOcr [(1, "B".toList), (2, "C".toList), (0, "A".toList)]
        = processImages ["A".toList, "B".toList, "C".toList]
    ∧ (combineOcr [(1, "B".toList), (2, "C".toList), (0, "A".toList)]).2
        = "A\n\n---\n\nB\n\n---\n\nC".toList := by
  have h := ocr_order_invariant ["A".toList, "B".toList, "C".toList]
    [(1, "B".toList), (2, "C".toList), (0, "A".toList)] (by decide)
  refine ⟨h.1, ?_⟩
  rw [h.2]
  decide

/-! ### Chunking lemmas -/

theorem splitPara_ne_nil (t : Str) : splitPara t ≠ [] := by
  match t with
  | [] => simp [splitPara]
  | [c] => simp [splitPara]
  | c1 :: c2 :: rest =>
    unfold splitPara
    by_cases h : c1 = '\n' ∧ c2 = '\n'
    · simp [h]
    · simp only [h, if_false]
      cases splitPara (c2 :: rest) <;> simp

theorem splitPara_replicate (n : Nat) :
    splitPara (List.replicate n 'a') = [List.replicate n 'a'] := by
  induction n with
  | zero => rfl
  | succ m ih =>
    cases m with
    | zero => rfl
    | succ k =>
      show splitPara ('a' :: 'a' :: List.replicate k 'a') = _
      unfold splitPara
      have hno : ¬('a' = '\n' ∧ 'a' = '\n') := by decide
      simp only [hno, if_false]
      have hrw : ('a' :: List.replicate k 'a') = List.replicate (k + 1) 'a' := by
        rw [List.replicate_succ]
      rw [hrw, ih]
      simp [List.replicate_succ]

theorem pyStrip_append_nl2 (s : Str) : pyStrip (s ++ nl2) = pyStrip s := by
  unfold pyStrip nl2
  have h : pyIsSpace '\n' = true := by decide
  simp [List.reverse_append, List.dropWhile_cons, h]

theorem dropWhile_replicate_a (n : Nat) :
    List.dropWhile pyIsSpace (List.replicate n 'a') = List.replicate n 'a' := by
  cases n with
  | zero => rfl
  | succ m =>
    rw [List.replicate_succ, List.dropWhile_cons]
    have ha : pyIsSpace 'a' = false := by decide
    simp [ha, List.replicate_succ]

theorem pyStrip_replicate (n : Nat) :
    pyStrip (List.replicate n 'a') = List.replicate n 'a' := by
  unfold pyStrip
  rw [List.reverse_replicate, dropWhile_replicate_a, List.reverse_replicate,
    dropWhile_replicate_a]

theorem length_dropWhile_le_self (p : α → Bool) (l : List α) :
    (l.dropWhile p).length ≤ l.length := by
  induction l with
  | nil => simp
  | cons a l ih =>
    rw [List.dropWhile_cons]
    by_cases h : p a
    · simp only [h, if_pos, List.length_cons]
      omega
    · simp [h]

theorem pyStrip_length_le (s : Str) : (pyStrip s).length ≤ s.length := by
  unfold pyStrip
  calc (((s.reverse.dropWhile pyIsSpace).reverse).dropWhile pyIsSpace).length
      ≤ ((s.reverse.dropWhile pyIsSpace).reverse).length := length_dropWhile_le_self _ _
    _ = (s.reverse.dropWhile pyIsSpace).length := by rw [List.length_reverse]
    _ ≤ s.reverse.length := length_dropWhile_le_self _ _
    _ = s.length := by rw [List.length_reverse]

theorem append_nl2_isEmpty (x : Str) : (x ++ nl2).isEmpty = false := by
  cases x <;> simp [nl2]

theorem append_singleton_isEmpty (l : List α) (x : α) : (l ++ [x]).isEmpty = false := by
  cases l <;> rfl

/-- A chunk is within budget or is the strip of a single input paragraph. -/
def chunkOk (paras : List Str) (c : Str) : Prop :=
  c.length < 2000 ∨ ∃ p ∈ paras, c = pyStrip p

/-- Invariant of the paragraph loop of `_split_text` for budget 2000: all
emitted chunks are ok, and the accumulator is empty or ends in the separator
with a within-budget or single-paragraph prefix. -/
def stateOk (paras : List Str) (st : List Str × Str) : Prop :=
  (∀ c ∈ st.1, chunkOk paras c)
  ∧ (st.2 = [] ∨ ∃ s, st.2 = s ++ nl2 ∧ (s.length < 2000 ∨ s ∈ paras))

theorem chunkOk_flush {paras : List Str} {st : List Str × Str}
    (h : stateOk paras st) (hne : st.2 ≠ []) : chunkOk paras (pyStrip st.2) := by
  rcases h.2 with h2 | ⟨s, hs, hsok⟩
  · exact absurd h2 hne
  · rw [hs, pyStrip_append_nl2]
    cases hsok with
    | inl hlen =>
      exact Or.inl (Nat.lt_of_le_of_lt (pyStrip_length_le s) hlen)
    | inr hmem => exact Or.inr ⟨s, hmem, rfl⟩

theorem stateOk_step {paras : List Str} {st : List Str × Str} {para : Str}
    (h : stateOk paras st) (hp : para ∈ paras) :
    stateOk paras (splitStep 2000 st para) := by
  unfold splitStep
  by_cases hlt : st.2.length + para.length < 2000
  · simp only [hlt, if_pos]
    refine ⟨h.1, Or.inr ⟨st.2 ++ para, by rw [List.append_assoc], Or.inl ?_⟩⟩
    rw [List.length_append]
    exact hlt
  · simp only [hlt, if_false]
    refine ⟨?_, Or.inr ⟨para, rfl, Or.inr hp⟩⟩
    by_cases he : st.2.isEmpty
    · simp only [he, if_pos]
      exact h.1
    · simp only [he, Bool.false_eq_true, if_false]
      intro c hc
      rw [List.mem_append] at hc
      cases hc with
      | inl hc => exact h.1 c hc
      | inr hc =>
        rw [List.mem_singleton] at hc
        subst hc
        exact chunkOk_flush h (by simpa [List.isEmpty_iff] using he)

theorem foldl_stateOk (paras : List Str) :
    ∀ (l : List Str) (st : List Str × Str), (∀ p ∈ l, p ∈ paras) → stateOk paras st →
      stateOk paras (l.foldl (splitStep 2000) st) := by
  intro l
  induction l with
  | nil => intro st _ h; exact h
  | cons p rest ih =>
    intro st hall h
    rw [List.foldl_cons]
    exact ih _ (fun q hq => hall q (List.mem_cons_of_mem p hq))
      (stateOk_step h (hall p (List.mem_cons_self p rest)))

theorem foldl_snd_ne_nil :
    ∀ (l : List Str) (st : List Str × Str), l ≠ [] →
      ((l.foldl (splitStep 2000) st).2).isEmpty = false := by
  intro l
  induction l with
  | nil => intro st h; exact absurd rfl h
  | cons p rest ih =>
    intro st _
    rw [List.foldl_cons]
    cases hr : rest with
    | nil =>
      subst hr
      simp only [List.foldl_nil]
      unfold splitStep
      by_cases hlt : st.2.length + p.length < 2000
      · simp only [hlt, if_pos]
        exact append_nl2_isEmpty _
      · simp only [hlt, if_false]
        exact append_nl2_isEmpty _
    | cons q rest2 =>
      rw [← hr]
      exact ih _ (by rw [hr]; simp)

theorem splitTextPy_single (text : Str) (h : splitPara text = [text]) :
    splitTextPy text 2000 = [pyStrip text] := by
  unfold splitTextPy
  rw [h]
  simp only [List.foldl_cons, List.foldl_nil]
  have hstep : splitStep 2000 ([], []) text = ([], text ++ nl2) := by
    unfold splitStep
    by_cases hc : ([] : Str).length + text.length < 2000
    · simp [hc]
    · simp [hc]
  rw [hstep]
  have hne : (text ++ nl2).isEmpty = false := append_nl2_isEmpty text
  simp only [hne, Bool.false_eq_true, if_false, List.nil_append]
  rw [pyStrip_append_nl2]
  simp

theorem splitTextPy_chunk_ok (text : Str) :
    ∀ c ∈ splitTextPy text 2000, c.length < 2000 ∨ ∃ p ∈ splitPara text, c = pyStrip p := by
  intro c hc
  unfold splitTextPy at hc
  have hfold := foldl_stateOk (splitPara text) (splitPara text) ([], [])
    (fun p hp => hp) ⟨by intro c hc; simp at hc, Or.inl rfl⟩
  have hne : (((splitPara text).foldl (splitStep 2000) ([], [])).2).isEmpty = false :=
    foldl_snd_ne_nil (splitPara text) ([], []) (splitPara_ne_nil text)
  simp only [hne, Bool.false_eq_true, if_false] at hc
  have hche := append_singleton_isEmpty
    ((List.foldl (splitStep 2000) ([], []) (splitPara text)).1)
    (pyStrip (List.foldl (splitStep 2000) ([], []) (splitPara text)).2)
  simp only [hche, Bool.false_eq_true, if_false] at hc
  rw [List.mem_append] at hc
  cases hc with
  | inl hmem => exact hfold.1 c hmem
  | inr hmem =>
    rw [List.mem_singleton] at hmem
    subst hmem
    exact chunkOk_flush hfold (by simpa [List.isEmpty_iff] using hne)

/-- Claim C9 (amended): the chunker splits on double-newline boundaries with
greedy accumulation bounded by the 2000-character budget, so every emitted
chunk is either shorter than the budget or the strip of one oversized
paragraph; a corpus with no double-newline boundary yields exactly one chunk
holding the whole stripped corpus, with no truncation (the hard-truncation
fallback is unreachable). -/
theorem split_text_greedy_and_no_boundary (text : Str) :
    (splitPara text = [text] → splitTextPy text 2000 = [pyStrip text])
    ∧ (∀ c ∈ splitTextPy text 2000, c.length < 2000 ∨ ∃ p ∈ splitPara text, c = pyStrip p) :=
  ⟨splitTextPy_single text, splitTextPy_chunk_ok text⟩

/-- Claim C9 witness: 2001 copies of a non-whitespace character form a
boundary-free corpus whose single chunk is the whole corpus, exceeding the
2000-character budget. -/
theorem split_text_greedy_and_no_boundary_witness :
    splitTextPy (List.replicate 2001 'a') 2000 = [List.replicate 2001 'a']
    ∧ 2000 < (List.replicate 2001 'a').length := by
  have h := (split_text_greedy_and_no_boundary (List.replicate 2001 'a')).1
    (splitPara_replicate 2001)
  rw [pyStrip_replicate] at h
  refine ⟨h, ?_⟩
  rw [List.length_replicate]
  omega

/-- Claim C9 counterexample: the chunker does not hard-truncate a
boundary-free corpus; 2001 characters come back as one chunk of length 2001,
above the 2000-character budget. -/
theorem split_text_not_truncated_counterexample :
    splitTextPy (List.replicate 2001 'a') 2000 = [List.replicate 2001 'a']
    ∧ ¬((List.replicate 2001 'a').length ≤ 2000) := by
  constructor
  · rw [splitTextPy_single _ (splitPara_replicate 2001), pyStrip_replicate]
  · rw [List.length_replicate]
    omega

/-! ### Durable-store matching lemmas -/

theorem patMatchAt_of_isPrefixOfCI :
    ∀ {q t : Str}, isPrefixOfCI q t = true → patMatchAt q t = true := by
  intro q
  induction q with
  | nil => intro t _; rfl
  | cons p ps ih =>
    intro t h
    cases t with
    | nil => simp [isPrefixOfCI] at h
    | cons c cs =>
      simp only [isPrefixOfCI, Bool.and_eq_true, decide_eq_true_eq] at h
      simp only [patMatchAt, Bool.and_eq_true, Bool.or_eq_true, decide_eq_true_eq]
      exact ⟨Or.inr h.1, ih h.2⟩

theorem regexSearch_of_containsCI :
    ∀ {t q : Str}, containsCI q t = true → regexSearch q t = true := by
  intro t
  induction t with
  | nil =>
    intro q h
    unfold containsCI at h
    unfold regexSearch
    exact patMatchAt_of_isPrefixOfCI h
  | cons c cs ih =>
    intro q h
    unfold containsCI at h
    unfold regexSearch
    simp only [Bool.or_eq_true] at h ⊢
    cases h with
    | inl h1 => exact Or.inl (patMatchAt_of_isPrefixOfCI h1)
    | inr h2 => exact Or.inr (ih h2)

/-- Claim C7 (amended): a stored document is retrievable whenever the query
name is a case-insensitive literal substring of the stored name (and, when a
location is given, likewise for the location) - the Tandoori example holds -
but the match applies the unescaped query as a case-insensitive pattern, so
matching is strictly broader than the safe literal "contains" semantics the
claim describes. -/
theorem store_lookup_contains_sufficient (store : List MenuDocRec) (d : MenuDocRec)
    (qn ql : Str) (hmem : d ∈ store) (hn : qn ≠ [])
    (hname : containsCI qn d.restaurant_name = true)
    (hloc : ql = [] ∨ containsCI ql d.location = true) :
    (getMenu (some qn) ql store).isSome = true := by
  have hnt : nameTruthy (some qn) = true := by
    cases qn with
    | nil => exact absurd rfl hn
    | cons a l => rfl
  unfold getMenu
  rw [hnt]
  simp only [Bool.not_true, Bool.false_eq_true, if_false]
  rw [List.find?_isSome]
  refine ⟨d, hmem, ?_⟩
  unfold docMatches
  rw [Bool.and_eq_true]
  refine ⟨regexSearch_of_containsCI hname, ?_⟩
  cases hloc with
  | inl h =>
    subst h
    rfl
  | inr h =>
    rw [Bool.or_eq_true]
    exact Or.inr (regexSearch_of_containsCI h)

/-- Claim C7 witness: the document stored as name "Tandoori Treat", location
"Koramangala" is found by the case-insensitive partial query "tandoori" /
"koramangala". -/
theorem store_lookup_contains_sufficient_witness :
    (getMenu (some "tandoori".toList) "koramangala".toList
      [⟨"Tandoori Treat".toList, "Koramangala".toList⟩]).isSome = true :=
  store_lookup_contains_sufficient
    [⟨"Tandoori Treat".toList, "Koramangala".toList⟩]
    ⟨"Tandoori Treat".toList, "Koramangala".toList⟩
    "tandoori".toList "koramangala".toList
    (by decide) (by decide) (by decide) (Or.inr (by decide))

/-- Claim C7 counterexample: the query "t.ndoori" is not a case-insensitive
literal substring of "Tandoori Treat", yet the store lookup returns the
document - the dot acts as a pattern wildcard, so the query string is not
treated as literal text. -/
theorem store_lookup_pattern_counterexample :
    (getMenu (some "t.ndoori".toList) []
        [⟨"Tandoori Treat".toList, "Koramangala".toList⟩])
      = some ⟨"Tandoori Treat".toList, "Koramangala".toList⟩
    ∧ containsCI "t.ndoori".toList "Tandoori Treat".toList = false := by
  decide

/-! ### Pipeline error handling -/

/-- Claim C8 (amended): a failed restaurant search, or a resolved place
without a photo-listing id, is fatal (not-found); but a resolved place whose
photo list yields zero image URLs carries no error, so the pipeline proceeds
past the guard and ends in the degraded "no text extracted" outcome instead
of the not-found error. -/
theorem runPipeline_noText_of_empty (serp : SerpResult) (ocr : Str → Str) (cfg : Bool)
    (backend : Nat → Str → Option Md) (herr : serp.error = none)
    (hurls : serp.image_urls = []) :
    runPipeline serp ocr cfg backend = .noText := by
  unfold runPipeline
  rw [herr, hurls]
  have hi : List.intercalate sepStr ([] : List Str) = [] := rfl
  simp [processImages, combineOcr, hi]

theorem fetch_failure_handling (name : Option Str) (photos : List (Option Str))
    (ocr : Str → Str) (cfg : Bool) (backend : Nat → Str → Option Md) :
    runPipeline (extractMenuImages name none photos) ocr cfg backend
        = .notFound "Restaurant not found on Google Maps".toList
    ∧ (∀ p : Place, p.data_id = none →
        runPipeline (extractMenuImages name (some p) photos) ocr cfg backend
          = .notFound "No data_id found".toList)
    ∧ (∀ p : Place, p.data_id.isSome = true →
        (extractMenuImages name (some p) photos).image_urls = [] →
        runPipeline (extractMenuImages name (some p) photos) ocr cfg backend = .noText) := by
  refine ⟨?_, ?_, ?_⟩
  · simp [extractMenuImages, runPipeline]
  · intro p hd
    simp [extractMenuImages, runPipeline, hd]
  · intro p hd hurls
    obtain ⟨did, hdid⟩ := Option.isSome_iff_exists.mp hd
    refine runPipeline_noText_of_empty _ _ _ _ ?_ hurls
    simp [extractMenuImages, hdid]

/-- Claim C8 witness: the two fatal cases produce not-found, and the
zero-image case produces the degraded no-text outcome. -/
theorem fetch_failure_handling_witness :
    runPipeline (extractMenuImages (some "R".toList) none [])
        (fun _ => []) true (fun _ _ => some [])
      = .notFound "Restaurant not found on Google Maps".toList
    ∧ runPipeline (extractMenuImages (some "R".toList)
          (some ⟨some "R".toList, [], none⟩) [])
        (fun _ => []) true (fun _ _ => some [])
      = .notFound "No data_id found".toList
    ∧ runPipeline (extractMenuImages (some "R".toList)
          (some ⟨some "R".toList, [], some "id".toList⟩) [])
        (fun _ => []) true (fun _ _ => some [])
      = .noText := by
  have h := fetch_failure_handling (some "R".toList) [] (fun _ => []) true (fun _ _ => some [])
  exact ⟨h.1, h.2.1 ⟨some "R".toList, [], none⟩ rfl,
    h.2.2 ⟨some "R".toList, [], some "id".toList⟩ rfl rfl⟩

/-- Claim C8 counterexample: a resolved restaurant with a photo-listing id
and zero menu photos returns no error key and an empty URL list; the
pipeline does not terminate with the not-found signal but proceeds to the
degraded no-text result. -/
theorem zero_images_not_fatal_counterexample :
    (extractMenuImages (some "R".toList)
        (some ⟨some "R".toList, [], some "id".toList⟩) []).error = none
    ∧ (extractMenuImages (some "R".toList)
        (some ⟨some "R".toList, [], some "id".toList⟩) []).image_urls = []
    ∧ runPipeline (extractMenuImages (some "R".toList)
          (some ⟨some "R".toList, [], some "id".toList⟩) [])
        (fun _ => []) true (fun _ _ => some [])
      = .noText := by
  refine ⟨rfl, rfl, rfl⟩

end MenuExtractor
